import Mathlib

/-!
Verification of the tree-construction core (`tree-builder.ts`): the cascading
ignore-rule stack, the recursive scanner `buildTree`, and the aggregation pass
`getSummary`.

The filesystem observed by `buildTree` is modelled explicitly as the inductive
type `FS`: each constructor records what the link-aware `lstat` / `readdir` /
`readFile('.gitignore')` calls of the source would report for that path
(`statFail` = `lstat` throws; `symlink` = `isSymbolicLink()`; `dir` carries the
`.gitignore` content as a pattern list, `none` when the read throws, and the
`readdir` listing, `none` when `readdir` throws).

The external `ignore` npm library is a third-party dependency, not code of this
repository; `buildTree` is therefore parameterized by its semantics
(`IgnoreSem`: pattern list → relative path → excluded?).  For the spec's
concrete pattern examples a matcher `specLitSem`, modelled from the spec's
words, instantiates that parameter.
-/

namespace TreeCli

/-- Contents of one ignore declaration: the list of pattern lines added to an
`ignore()` instance. -/
abbrev Patterns := List String

/-- Semantics of the external `ignore` library: `sem pats rel` is
`ignore().add(pats).ignores(rel)`. -/
abbrev IgnoreSem := Patterns → String → Bool

/-- `TreeNode.type` in `tree-types.ts`: `'file' | 'folder'`. -/
inductive NodeType : Type where
  | file : NodeType
  | folder : NodeType
deriving DecidableEq, Repr

/-- `TreeNode.skipped` in `tree-types.ts`: `'gitignore' | 'size'`. -/
inductive SkipReason : Type where
  | gitignore : SkipReason
  | size : SkipReason
deriving DecidableEq, Repr

mutual
/-- `TreeNode` of `tree-types.ts`: `{ name, path, type, children?, skipped?,
stats? }`.  `stats` is its single `size` field; absent fields are `none`.
`NodeList` is the `TreeNode[]` of the `children` field (a separate mutual
inductive so consumers can be structurally recursive). -/
inductive TreeNode : Type where
  | node (name : String) (path : String) (type : NodeType)
         (stats : Option Nat) (skipped : Option SkipReason)
         (children : Option NodeList) : TreeNode
inductive NodeList : Type where
  | nil : NodeList
  | cons (head : TreeNode) (tail : NodeList) : NodeList
end

def TreeNode.name : TreeNode → String
  | .node n _ _ _ _ _ => n

def TreeNode.path : TreeNode → String
  | .node _ p _ _ _ _ => p

def TreeNode.type : TreeNode → NodeType
  | .node _ _ t _ _ _ => t

def TreeNode.stats : TreeNode → Option Nat
  | .node _ _ _ s _ _ => s

def TreeNode.skipped : TreeNode → Option SkipReason
  | .node _ _ _ _ sk _ => sk

def TreeNode.children : TreeNode → Option NodeList
  | .node _ _ _ _ _ cs => cs

def NodeList.toList : NodeList → List TreeNode
  | .nil => []
  | .cons c rest => c :: rest.toList

def NodeList.ofList : List TreeNode → NodeList
  | [] => .nil
  | c :: rest => .cons c (NodeList.ofList rest)

mutual
/-- The observed filesystem at one path (what the source's fallible I/O calls
would report there). -/
inductive FS : Type where
  | statFail : FS
  | symlink (target : FS) : FS
  | file (size : Nat) : FS
  | dir (gitignore : Option Patterns) (listing : Option FSList) : FS
inductive FSList : Type where
  | nil : FSList
  | cons (name : String) (entry : FS) (tail : FSList) : FSList
end

def FS.isDirectory : FS → Bool
  | .dir _ _ => true
  | _ => false

def FS.isSymbolicLink : FS → Bool
  | .symlink _ => true
  | _ => false

/-- `path.join(a, b)` for a simple name `b`. -/
def pathJoin (a b : String) : String := a ++ "/" ++ b

/-- Split a character list at every `'/'` (the character-level core of
`s.split('/')`). -/
def chsplit : List Char → List (List Char)
  | [] => [[]]
  | c :: rest =>
    let r := chsplit rest
    if c = '/' then [] :: r
    else
      match r with
      | [] => [[c]]
      | h :: t => (c :: h) :: t

/-- `path.basename`: the last `'/'`-separated component. -/
def basename (p : String) : String :=
  String.mk ((chsplit p.data).getLastD p.data)

/-- `path.relative(base, p)`, specialized to the only use in `buildTree`:
every `basePath` on the ignore stack is an ancestor directory of the entry
path, so the relative path is what follows `base ++ "/"`. -/
def pathRelative (base p : String) : String :=
  String.mk (p.data.drop (base.data.length + 1))

/-- `TreeOptions` of `tree-types.ts`.  `maxLeaf : Option Nat` models the
optional JS number field (the source guards it with a truthiness test). -/
structure TreeOptions where
  maxLeaf : Option Nat := none
  ignorePatterns : Option Patterns := none

/-- `IgnoreStackItem`: one `{ ignorer, basePath }` level of the cascading
ignore stack.  The opaque `ignore()` instance is represented by the pattern
list it was built from. -/
structure IgnoreStackItem where
  ignorer : Patterns
  basePath : String

/-- One iteration of the stack loop in `buildTree`: this level excludes the
entry when its matcher ignores the path relative to the level's `basePath`,
or (for directories) its directory form `relPath ++ "/"`. -/
def levelExcludes (sem : IgnoreSem) (itemPath : String) (isDir : Bool)
    (lvl : IgnoreStackItem) : Bool :=
  let relPath := pathRelative lvl.basePath itemPath
  sem lvl.ignorer relPath || (isDir && sem lvl.ignorer (relPath ++ "/"))

/-- The `for (const { ignorer, basePath } of newStack)` loop of `buildTree`:
walk the stack from the root level down, breaking at the first level that
excludes the entry. -/
def checkIgnored (sem : IgnoreSem) (itemPath : String) (isDir : Bool) :
    List IgnoreStackItem → Bool
  | [] => false
  | lvl :: rest =>
    if levelExcludes sem itemPath isDir lvl then true
    else checkIgnored sem itemPath isDir rest

/-- One candidate of the first scanning pass of `buildTree`:
`{ name, path, isIgnored, stats }`, where `stats` is the entry's lstat result
(kept as its `FS` value). -/
structure Candidate where
  name : String
  path : String
  isIgnored : Bool
  stats : FS

/-- The first `for (const item of childrenItems)` pass of `buildTree`: drop
entries whose lstat fails and symlinks, and record for each survivor whether
any level of the stack ignores it. -/
def scanCandidates (sem : IgnoreSem) (currentPath : String)
    (newStack : List IgnoreStackItem) : FSList → List Candidate
  | .nil => []
  | .cons item e rest =>
    let tail := scanCandidates sem currentPath newStack rest
    match e with
    | .statFail => tail
    | .symlink _ => tail
    | e =>
      let itemPath := pathJoin currentPath item
      ⟨item, itemPath, checkIgnored sem itemPath e.isDirectory newStack, e⟩ :: tail

/-- `candidates.filter(c => !c.isIgnored).length`. -/
def visibleCount (cands : List Candidate) : Nat :=
  (cands.filter (fun c => !c.isIgnored)).length

/-- The JS truncation test `options.maxLeaf && visibleCount > options.maxLeaf`:
`maxLeaf` must be present and truthy (nonzero) before the comparison runs. -/
def maxLeafTruncates (maxLeaf : Option Nat) (visible : Nat) : Bool :=
  match maxLeaf with
  | none => false
  | some m => m != 0 && visible > m

/-- Case-sensitive lexicographic comparison on character lists: the reading of
`a.name.localeCompare(b.name) ≤ 0` taken by this development (collation is
locale data, external to the program). -/
def lexLe : List Char → List Char → Bool
  | [], _ => true
  | _ :: _, [] => false
  | a :: as, b :: bs =>
    if a < b then true
    else if b < a then false
    else lexLe as bs

/-- The sort comparator of `buildTree`, as a precedence for a stable sort:
`a` may come before `b` iff both have the same type and
`a.name.localeCompare(b.name) ≤ 0`, or `a` is the folder of a folder/file
pair. -/
def nodeLe (a b : TreeNode) : Bool :=
  if a.type = b.type then lexLe a.name.data b.name.data
  else a.type = NodeType.folder

/-- `nodeLe` as a relation, for sorting. -/
def nodeLeR (a b : TreeNode) : Prop := nodeLe a b = true

instance : DecidableRel nodeLeR := fun a b => by
  unfold nodeLeR; infer_instance

/-- The `children.sort(comparator)` call: a stable sort by `nodeLe`
(JS `Array.prototype.sort` is stable, and a stable sort by a total preorder
is unique, so any stable sorting algorithm models it). -/
def sortNodes (l : List TreeNode) : List TreeNode :=
  List.insertionSort nodeLeR l

mutual
/-- `buildTree(currentPath, options, ignoreStack)` of `tree-builder.ts`,
with the filesystem and the external matcher semantics made explicit.
Case by case on the observed state of `currentPath`:
lstat failure and symlinks return a zero-size file node; a plain file returns
a file node with its size; a directory builds this level's `ignore()` instance
(`'.git'` and `options.ignorePatterns` only when the stack is empty, then the
directory's own `.gitignore` content), appends it to the stack, and scans.
A failed `readdir` yields a folder node with empty `children`.  Otherwise the
candidates pass runs, the `maxLeaf` truncation test is applied to the visible
count, and the children are emitted and sorted. -/
def buildTree (sem : IgnoreSem) (currentPath : String) (options : TreeOptions)
    (ignoreStack : List IgnoreStackItem) : FS → TreeNode
  | .statFail =>
    .node (basename currentPath) currentPath .file (some 0) none none
  | .symlink _ =>
    .node (basename currentPath) currentPath .file (some 0) none none
  | .file sz =>
    .node (basename currentPath) currentPath .file (some sz) none none
  | .dir gitignore listing =>
    let name := basename currentPath
    let rootPats : Patterns :=
      if ignoreStack.isEmpty then ".git" :: (options.ignorePatterns.getD []) else []
    let currentIg : Patterns := rootPats ++ gitignore.getD []
    let newStack := ignoreStack ++ [⟨currentIg, currentPath⟩]
    match listing with
    | none => .node name currentPath .folder none none (some .nil)
    | some items =>
      let candidates := scanCandidates sem currentPath newStack items
      if maxLeafTruncates options.maxLeaf (visibleCount candidates) then
        .node name currentPath .folder none (some .size) none
      else
        .node name currentPath .folder none none
          (some (NodeList.ofList
            (sortNodes (buildKids sem options newStack currentPath items))))
  termination_by structural fs => fs

/-- The second, emitting `for (const cand of candidates)` loop of `buildTree`,
fused over the raw listing (each candidate of the first pass is recomputed in
place, which yields the same sequence since both passes are pure and drop the
same entries): lstat-failed entries and symlinks contribute nothing; an
ignored directory becomes a `skipped: 'gitignore'` stub without recursion; an
ignored file is omitted; a visible directory recurses with the augmented
stack; a visible file becomes a file node with its size. -/
def buildKids (sem : IgnoreSem) (options : TreeOptions)
    (newStack : List IgnoreStackItem) (currentPath : String) :
    FSList → List TreeNode
  | .nil => []
  | .cons item e rest =>
    let tail := buildKids sem options newStack currentPath rest
    match e with
    | .statFail => tail
    | .symlink _ => tail
    | .file sz =>
      let itemPath := pathJoin currentPath item
      if checkIgnored sem itemPath false newStack then tail
      else .node item itemPath .file (some sz) none none :: tail
    | .dir g l =>
      let itemPath := pathJoin currentPath item
      if checkIgnored sem itemPath true newStack then
        .node item itemPath .folder none (some .gitignore) none :: tail
      else buildTree sem itemPath options newStack (.dir g l) :: tail
  termination_by structural l => l
end

/-- `TreeSummary` of `tree-builder.ts`. -/
structure TreeSummary where
  totalFiles : Nat
  totalFolders : Nat
  skippedGitignore : Nat
  skippedSize : Nat
deriving DecidableEq, Repr

mutual
/-- The `traverse` closure of `getSummary`, with the mutated `summary` record
threaded as an accumulator: a folder increments `totalFolders` and, by its
`skipped` marker, one of the two skip counters; anything else increments
`totalFiles`; then the children are traversed when present. -/
def sumVisit (acc : TreeSummary) : TreeNode → TreeSummary
  | .node _ _ t _ sk cs =>
    let acc1 :=
      match t with
      | .folder =>
        { acc with
          totalFolders := acc.totalFolders + 1
          skippedGitignore :=
            if sk = some .gitignore then acc.skippedGitignore + 1
            else acc.skippedGitignore
          skippedSize :=
            if sk = some .size then acc.skippedSize + 1 else acc.skippedSize }
      | .file => { acc with totalFiles := acc.totalFiles + 1 }
    match cs with
    | none => acc1
    | some l => sumVisitList acc1 l
  termination_by structural t => t

def sumVisitList (acc : TreeSummary) : NodeList → TreeSummary
  | .nil => acc
  | .cons c rest => sumVisitList (sumVisit acc c) rest
  termination_by structural l => l
end

/-- `getSummary` of `tree-builder.ts`: traverse from the all-zero summary. -/
def getSummary (node : TreeNode) : TreeSummary :=
  sumVisit ⟨0, 0, 0, 0⟩ node

/-- Modelled from the spec: the external `ignore` library's matcher restricted
to the pattern forms the spec's examples use — a pattern ending in `/` matches
only the directory form of exactly that path; a pattern containing `/` is
anchored at the declaring directory and matches exactly that relative path
(`"src/ignore.txt"` declared at the root matches only `<root>/src/ignore.txt`);
a bare pattern matches an entry of that base name. -/
def patMatches (pat rel : String) : Bool :=
  if pat.data.getLast? == some '/' then rel == pat
  else if pat.data.contains '/' then rel == pat
  else String.mk ((chsplit rel.data).getLastD rel.data) == pat

/-- Modelled from the spec: an `ignore()` instance excludes a relative path
when any of its added pattern lines matches it. -/
def specLitSem : IgnoreSem := fun pats rel => pats.any (fun p => patMatches p rel)

mutual
/-- Number of nodes of the tree satisfying `p`, visiting `children` exactly as
`getSummary` does (only when present). -/
def countNodes (p : TreeNode → Bool) : TreeNode → Nat
  | .node n pa t sz sk cs =>
    (if p (.node n pa t sz sk cs) then 1 else 0) +
      match cs with
      | none => 0
      | some l => countList p l
  termination_by structural t => t

def countList (p : TreeNode → Bool) : NodeList → Nat
  | .nil => 0
  | .cons c rest => countNodes p c + countList p rest
  termination_by structural l => l
end

mutual
/-- All node names occurring anywhere in the tree. -/
def namesOf : TreeNode → List String
  | .node n _ _ _ _ none => [n]
  | .node n _ _ _ _ (some l) => n :: namesOfList l
  termination_by structural t => t

def namesOfList : NodeList → List String
  | .nil => []
  | .cons c rest => namesOf c ++ namesOfList rest
  termination_by structural l => l
end

/-- `nodeLe` holds from `c` to the head of `rest`, if any. -/
def leHead (c : TreeNode) : NodeList → Prop
  | .nil => True
  | .cons d _ => nodeLe c d = true

mutual
/-- Every `children` field present anywhere in the tree is ordered by
`nodeLe` (adjacent pairs; `nodeLe` is total and transitive, so this is full
sortedness). -/
def sortedTree : TreeNode → Prop
  | .node _ _ _ _ _ none => True
  | .node _ _ _ _ _ (some l) => sortedList l
  termination_by structural t => t

def sortedList : NodeList → Prop
  | .nil => True
  | .cons c rest =>
    sortedTree c ∧ leHead c rest ∧ sortedList rest
  termination_by structural l => l
end

mutual
/-- Erase every symlink entry from every directory listing of the observed
filesystem, at all depths. -/
def FS.prune : FS → FS
  | .statFail => .statFail
  | .symlink t => .symlink t.prune
  | .file n => .file n
  | .dir gi none => .dir gi none
  | .dir gi (some l) => .dir gi (some l.prune)
  termination_by structural fs => fs

def FSList.prune : FSList → FSList
  | .nil => .nil
  | .cons nm e rest =>
    match e with
    | .symlink _ => rest.prune
    | e => .cons nm e.prune rest.prune
  termination_by structural l => l
end

/-! ### Order-theoretic facts about the sort comparator -/

theorem lexLe_total : ∀ a b : List Char, lexLe a b = true ∨ lexLe b a = true
  | [], _ => by left; rfl
  | _ :: _, [] => by right; rfl
  | a :: as, b :: bs => by
    by_cases hab : a < b
    · left; simp [lexLe, hab]
    · by_cases hba : b < a
      · right; simp [lexLe, hba, lt_asymm hba]
      · rcases lexLe_total as bs with h | h
        · left; simp [lexLe, hab, hba, h]
        · right; simp [lexLe, hab, hba, h]

theorem lexLe_trans :
    ∀ a b c : List Char, lexLe a b = true → lexLe b c = true → lexLe a c = true
  | [], _, _, _, _ => rfl
  | _ :: _, [], _, h, _ => by simp [lexLe] at h
  | _ :: _, _ :: _, [], _, h => by simp [lexLe] at h
  | a :: as, b :: bs, c :: cs, h1, h2 => by
    by_cases hab : a < b
    · by_cases hbc : b < c
      · simp [lexLe, lt_trans hab hbc]
      · by_cases hcb : c < b
        · simp [lexLe, hcb, lt_asymm hcb] at h2
        · have hbc' : b = c := le_antisymm (not_lt.mp hcb) (not_lt.mp hbc)
          simp [lexLe, hbc' ▸ hab]
    · by_cases hba : b < a
      · simp [lexLe, hab, hba] at h1
      · have hab' : a = b := le_antisymm (not_lt.mp hba) (not_lt.mp hab)
        subst hab'
        by_cases hbc : a < c
        · simp [lexLe, hbc]
        · by_cases hcb : c < a
          · simp [lexLe, hbc, hcb] at h2
          · simp [lexLe, hbc, hcb] at h1 h2 ⊢
            exact lexLe_trans as bs cs h1 h2

theorem nodeLe_total (a b : TreeNode) : nodeLeR a b ∨ nodeLeR b a := by
  unfold nodeLeR nodeLe
  cases hA : a.type <;> cases hB : b.type <;>
    simp [hA, hB] <;> exact lexLe_total a.name.data b.name.data

theorem nodeLe_trans (a b c : TreeNode) :
    nodeLeR a b → nodeLeR b c → nodeLeR a c := by
  unfold nodeLeR nodeLe
  cases hA : a.type <;> cases hB : b.type <;> cases hC : c.type <;>
    simp [hA, hB] <;>
    exact lexLe_trans a.name.data b.name.data c.name.data

instance : IsTotal TreeNode nodeLeR := ⟨nodeLe_total⟩

instance : IsTrans TreeNode nodeLeR := ⟨nodeLe_trans⟩

theorem sortNodes_pairwise (l : List TreeNode) : (sortNodes l).Pairwise nodeLeR :=
  List.sorted_insertionSort nodeLeR l

theorem mem_sortNodes {c : TreeNode} {l : List TreeNode} :
    c ∈ sortNodes l ↔ c ∈ l :=
  List.mem_insertionSort nodeLeR

theorem sortedList_ofList :
    ∀ l : List TreeNode, l.Pairwise nodeLeR → (∀ c ∈ l, sortedTree c) →
      sortedList (NodeList.ofList l)
  | [], _, _ => by simp [NodeList.ofList, sortedList]
  | c :: rest, hp, hs => by
    simp only [NodeList.ofList, sortedList]
    refine ⟨hs c (by simp), ?_,
      sortedList_ofList rest (List.Pairwise.of_cons hp)
        (fun d hd => hs d (by simp [hd]))⟩
    cases rest with
    | nil => simp [NodeList.ofList, leHead]
    | cons d rest2 =>
      simp only [NodeList.ofList, leHead]
      exact (List.pairwise_cons.mp hp).1 d (by simp)

/-! ### The sortedness invariant holds of every tree `buildTree` produces -/

/-- Both outcomes of the size-truncation test in the directory case of
`buildTree` are sorted trees, given that all emitted children are. -/
theorem sortedTree_buildStep (sem : IgnoreSem) (path : String)
    (opts : TreeOptions) (st2 : List IgnoreStackItem) (items : FSList)
    (hk : ∀ c ∈ buildKids sem opts st2 path items, sortedTree c) :
    sortedTree
      (if maxLeafTruncates opts.maxLeaf
          (visibleCount (scanCandidates sem path st2 items)) = true then
        TreeNode.node (basename path) path .folder none (some .size) none
      else
        TreeNode.node (basename path) path .folder none none
          (some (NodeList.ofList
            (sortNodes (buildKids sem opts st2 path items))))) := by
  split
  · simp [sortedTree]
  · simp only [sortedTree]
    exact sortedList_ofList _ (sortNodes_pairwise _)
      (fun c hc => hk c (mem_sortNodes.mp hc))

mutual
theorem buildTree_sorted :
    ∀ (fs : FS) (sem : IgnoreSem) (path : String) (opts : TreeOptions)
      (stack : List IgnoreStackItem), sortedTree (buildTree sem path opts stack fs)
  | .statFail, _, _, _, _ => by simp [buildTree, sortedTree]
  | .symlink _, _, _, _, _ => by simp [buildTree, sortedTree]
  | .file _, _, _, _, _ => by simp [buildTree, sortedTree]
  | .dir gi none, _, _, _, _ => by simp [buildTree, sortedTree, sortedList]
  | .dir gi (some items), sem, path, opts, stack => by
    simp only [buildTree]
    exact sortedTree_buildStep sem path opts _ items
      (fun c hc => buildKids_sorted items sem opts _ path c hc)
  termination_by structural fs => fs

theorem buildKids_sorted :
    ∀ (l : FSList) (sem : IgnoreSem) (opts : TreeOptions)
      (stack : List IgnoreStackItem) (path : String) (c : TreeNode),
      c ∈ buildKids sem opts stack path l → sortedTree c
  | .nil, _, _, _, _, _, hc => by simp [buildKids] at hc
  | .cons item e rest, sem, opts, stack, path, c, hc => by
    cases e with
    | statFail => exact buildKids_sorted rest sem opts stack path c hc
    | symlink t => exact buildKids_sorted rest sem opts stack path c hc
    | file sz =>
      simp only [buildKids] at hc
      split at hc
      · exact buildKids_sorted rest sem opts stack path c hc
      · rcases List.mem_cons.mp hc with h' | h'
        · subst h'; simp [sortedTree]
        · exact buildKids_sorted rest sem opts stack path c h'
    | dir g l =>
      simp only [buildKids] at hc
      split at hc
      · rcases List.mem_cons.mp hc with h' | h'
        · subst h'; simp [sortedTree]
        · exact buildKids_sorted rest sem opts stack path c h'
      · rcases List.mem_cons.mp hc with h' | h'
        · subst h'
          exact buildTree_sorted (.dir g l) sem (pathJoin path item) opts stack
        · exact buildKids_sorted rest sem opts stack path c h'
  termination_by structural l => l
end

/-! ### The cascading ignore stack: existential characterization -/

theorem checkIgnored_iff_exists (sem : IgnoreSem) (itemPath : String)
    (isDir : Bool) :
    ∀ stack : List IgnoreStackItem,
      checkIgnored sem itemPath isDir stack = true ↔
        ∃ lvl ∈ stack, levelExcludes sem itemPath isDir lvl = true
  | [] => by simp [checkIgnored]
  | lvl :: rest => by
    by_cases h : levelExcludes sem itemPath isDir lvl = true
    · simp [checkIgnored, h]
    · rw [checkIgnored, if_neg h, checkIgnored_iff_exists sem itemPath isDir rest]
      simp only [List.mem_cons]
      constructor
      · rintro ⟨l2, hl2, he⟩
        exact ⟨l2, Or.inr hl2, he⟩
      · rintro ⟨l2, hl2 | hl2, he⟩
        · exact absurd (hl2 ▸ he) h
        · exact ⟨l2, hl2, he⟩

theorem checkIgnored_append_of_true (sem : IgnoreSem) (itemPath : String)
    (isDir : Bool) (s1 s2 : List IgnoreStackItem)
    (h : checkIgnored sem itemPath isDir s1 = true) :
    checkIgnored sem itemPath isDir (s1 ++ s2) = true := by
  rw [checkIgnored_iff_exists] at h ⊢
  rcases h with ⟨lvl, hm, he⟩
  exact ⟨lvl, List.mem_append_left s2 hm, he⟩

/-! ### `maxLeaf = 0` behaves as an absent `maxLeaf` -/

mutual
theorem buildTree_maxLeaf_zero :
    ∀ (fs : FS) (sem : IgnoreSem) (path : String) (ip : Option Patterns)
      (stack : List IgnoreStackItem),
      buildTree sem path ⟨some 0, ip⟩ stack fs =
        buildTree sem path ⟨none, ip⟩ stack fs
  | .statFail, _, _, _, _ => rfl
  | .symlink _, _, _, _, _ => rfl
  | .file _, _, _, _, _ => rfl
  | .dir gi none, _, _, _, _ => rfl
  | .dir gi (some items), sem, path, ip, stack => by
    simp only [buildTree, maxLeafTruncates]
    norm_num
    rw [buildKids_maxLeaf_zero]
  termination_by structural fs => fs

theorem buildKids_maxLeaf_zero :
    ∀ (l : FSList) (sem : IgnoreSem) (path : String) (ip : Option Patterns)
      (stack : List IgnoreStackItem),
      buildKids sem ⟨some 0, ip⟩ stack path l =
        buildKids sem ⟨none, ip⟩ stack path l
  | .nil, _, _, _, _ => rfl
  | .cons item e rest, sem, path, ip, stack => by
    cases e with
    | statFail => exact buildKids_maxLeaf_zero rest sem path ip stack
    | symlink t => exact buildKids_maxLeaf_zero rest sem path ip stack
    | file sz =>
      simp only [buildKids]
      rw [buildKids_maxLeaf_zero rest sem path ip stack]
    | dir g l =>
      simp only [buildKids]
      rw [buildKids_maxLeaf_zero rest sem path ip stack,
        buildTree_maxLeaf_zero (.dir g l) sem (pathJoin path item) ip stack]
  termination_by structural l => l
end

/-! ### Symlink entries are invisible to the whole construction -/

theorem prune_isDirectory : ∀ e : FS, e.prune.isDirectory = e.isDirectory
  | .statFail => rfl
  | .symlink _ => rfl
  | .file _ => rfl
  | .dir _ none => rfl
  | .dir _ (some _) => rfl

theorem visibleCount_cons (c : Candidate) (cs : List Candidate) :
    visibleCount (c :: cs) =
      (if c.isIgnored then 0 else 1) + visibleCount cs := by
  simp only [visibleCount, List.filter_cons]
  cases h : c.isIgnored <;> simp [h, Nat.add_comm]

theorem scanCandidates_prune_visible :
    ∀ (l : FSList) (sem : IgnoreSem) (path : String)
      (st : List IgnoreStackItem),
      visibleCount (scanCandidates sem path st l.prune) =
        visibleCount (scanCandidates sem path st l)
  | .nil, _, _, _ => rfl
  | .cons nm e rest, sem, path, st => by
    cases e with
    | statFail =>
      simp only [FSList.prune, scanCandidates]
      exact scanCandidates_prune_visible rest sem path st
    | symlink t =>
      simp only [FSList.prune, scanCandidates]
      exact scanCandidates_prune_visible rest sem path st
    | file sz =>
      simp only [FSList.prune, FS.prune, scanCandidates, visibleCount_cons]
      rw [scanCandidates_prune_visible rest sem path st]
    | dir g lst =>
      cases lst with
      | none =>
        simp only [FSList.prune, FS.prune, scanCandidates, visibleCount_cons]
        rw [scanCandidates_prune_visible rest sem path st]
      | some l2 =>
        simp only [FSList.prune, FS.prune, scanCandidates, visibleCount_cons,
          FS.isDirectory]
        rw [scanCandidates_prune_visible rest sem path st]

mutual
theorem buildTree_prune :
    ∀ (fs : FS) (sem : IgnoreSem) (path : String) (opts : TreeOptions)
      (stack : List IgnoreStackItem),
      buildTree sem path opts stack fs.prune = buildTree sem path opts stack fs
  | .statFail, _, _, _, _ => rfl
  | .symlink _, _, _, _, _ => rfl
  | .file _, _, _, _, _ => rfl
  | .dir gi none, _, _, _, _ => rfl
  | .dir gi (some items), sem, path, opts, stack => by
    simp only [FS.prune, buildTree]
    rw [scanCandidates_prune_visible items, buildKids_prune items]
  termination_by structural fs => fs

theorem buildKids_prune :
    ∀ (l : FSList) (sem : IgnoreSem) (opts : TreeOptions)
      (stack : List IgnoreStackItem) (path : String),
      buildKids sem opts stack path l.prune = buildKids sem opts stack path l
  | .nil, _, _, _, _ => rfl
  | .cons nm e rest, sem, opts, stack, path => by
    cases e with
    | statFail =>
      simp only [FSList.prune, FS.prune, buildKids]
      exact buildKids_prune rest sem opts stack path
    | symlink t =>
      simp only [FSList.prune, buildKids]
      exact buildKids_prune rest sem opts stack path
    | file sz =>
      simp only [FSList.prune, FS.prune, buildKids]
      rw [buildKids_prune rest sem opts stack path]
    | dir g lst =>
      cases lst with
      | none =>
        simp only [FSList.prune, FS.prune, buildKids]
        rw [buildKids_prune rest sem opts stack path]
      | some l2 =>
        simp only [FSList.prune, FS.prune, buildKids]
        rw [buildKids_prune rest sem opts stack path]
        have h2 := buildTree_prune (.dir g (some l2)) sem (pathJoin path nm) opts stack
        simp only [FS.prune] at h2
        rw [h2]
  termination_by structural l => l
end

/-! ### `getSummary` counts nodes by kind and skip marker -/

def isFileNode (n : TreeNode) : Bool := n.type = NodeType.file

def isFolderNode (n : TreeNode) : Bool := n.type = NodeType.folder

def isIgnoreSkipFolder (n : TreeNode) : Bool :=
  isFolderNode n && n.skipped = some SkipReason.gitignore

def isSizeSkipFolder (n : TreeNode) : Bool :=
  isFolderNode n && n.skipped = some SkipReason.size

/-- The four counts of a tree, as plain node counts. -/
def summarySpec (t : TreeNode) : TreeSummary :=
  ⟨countNodes isFileNode t, countNodes isFolderNode t,
   countNodes isIgnoreSkipFolder t, countNodes isSizeSkipFolder t⟩

mutual
theorem sumVisit_spec :
    ∀ (t : TreeNode) (acc : TreeSummary),
      sumVisit acc t =
        ⟨acc.totalFiles + countNodes isFileNode t,
         acc.totalFolders + countNodes isFolderNode t,
         acc.skippedGitignore + countNodes isIgnoreSkipFolder t,
         acc.skippedSize + countNodes isSizeSkipFolder t⟩
  | .node n p ty sz sk cs, acc => by
    cases cs with
    | none =>
      cases ty <;> rcases sk with _ | s <;> try cases s
      all_goals
        simp [sumVisit, countNodes, isFileNode, isFolderNode,
          isIgnoreSkipFolder, isSizeSkipFolder, TreeNode.type, TreeNode.skipped]
    | some l =>
      rw [show sumVisit acc (.node n p ty sz sk (some l)) =
          sumVisitList
            (match ty with
             | .folder =>
               { acc with
                 totalFolders := acc.totalFolders + 1
                 skippedGitignore :=
                   if sk = some .gitignore then acc.skippedGitignore + 1
                   else acc.skippedGitignore
                 skippedSize :=
                   if sk = some .size then acc.skippedSize + 1
                   else acc.skippedSize }
             | .file => { acc with totalFiles := acc.totalFiles + 1 }) l
        from rfl]
      rw [sumVisitList_spec l]
      cases ty <;> rcases sk with _ | s <;> try cases s
      all_goals
        simp [countNodes, isFileNode, isFolderNode,
          isIgnoreSkipFolder, isSizeSkipFolder, TreeNode.type, TreeNode.skipped]
      all_goals omega
  termination_by structural t => t

theorem sumVisitList_spec :
    ∀ (l : NodeList) (acc : TreeSummary),
      sumVisitList acc l =
        ⟨acc.totalFiles + countList isFileNode l,
         acc.totalFolders + countList isFolderNode l,
         acc.skippedGitignore + countList isIgnoreSkipFolder l,
         acc.skippedSize + countList isSizeSkipFolder l⟩
  | .nil, acc => by simp [sumVisitList, countList]
  | .cons c rest, acc => by
    rw [show sumVisitList acc (.cons c rest) =
        sumVisitList (sumVisit acc c) rest from rfl]
    rw [sumVisitList_spec rest, sumVisit_spec c]
    simp [countList, Nat.add_assoc]
  termination_by structural l => l
end

theorem getSummary_spec (t : TreeNode) : getSummary t = summarySpec t := by
  rw [getSummary, sumVisit_spec t]
  simp [summarySpec]

/-! ### One-step unfolding of the directory case -/

/-- The stack `buildTree` hands to its scanning and emission passes when it
expands a directory: the caller's stack plus this directory's own level
(`'.git'` and `options.ignorePatterns` are added only at the root, then the
directory's `.gitignore` content). -/
def newStackFor (opts : TreeOptions) (stack : List IgnoreStackItem)
    (gi : Option Patterns) (path : String) : List IgnoreStackItem :=
  stack ++
    [⟨(if stack.isEmpty then ".git" :: opts.ignorePatterns.getD [] else [])
      ++ gi.getD [], path⟩]

theorem buildTree_dir_some (sem : IgnoreSem) (path : String)
    (opts : TreeOptions) (stack : List IgnoreStackItem) (gi : Option Patterns)
    (items : FSList) :
    buildTree sem path opts stack (.dir gi (some items)) =
      if maxLeafTruncates opts.maxLeaf
          (visibleCount
            (scanCandidates sem path (newStackFor opts stack gi path) items)) then
        .node (basename path) path .folder none (some .size) none
      else
        .node (basename path) path .folder none none
          (some (NodeList.ofList (sortNodes
            (buildKids sem opts (newStackFor opts stack gi path) path items)))) :=
  rfl

/-! ### Concrete filesystems and trees for the spec's worked examples -/

/-- Root with declaration `"src/ignore.txt"`, a root-level `ignore.txt`, and
`src/` containing `ignore.txt` and `keep.txt`. -/
def fsNested : FS :=
  .dir (some ["src/ignore.txt"])
    (some (.cons "ignore.txt" (.file 1)
      (.cons "src" (.dir none (some (.cons "ignore.txt" (.file 2)
        (.cons "keep.txt" (.file 3) .nil)))) .nil)))

/-- The tree `buildTree` produces from `fsNested`: only `<root>/src/ignore.txt`
is excluded; the root-level `ignore.txt` survives. -/
def treeNested : TreeNode :=
  .node "r" "/r" .folder none none (some (.cons
    (.node "src" "/r/src" .folder none none (some (.cons
      (.node "keep.txt" "/r/src/keep.txt" .file (some 3) none none) .nil)))
    (.cons (.node "ignore.txt" "/r/ignore.txt" .file (some 1) none none) .nil)))

/-- A directory of five non-ignored files. -/
def fsBig5 : FSList :=
  .cons "f1" (.file 1) (.cons "f2" (.file 2) (.cons "f3" (.file 3)
    (.cons "f4" (.file 4) (.cons "f5" (.file 5) .nil))))

/-- A directory of five files of which the declaration ignores three. -/
def fsIgn3of5 : FS :=
  .dir (some ["a.txt", "b.txt", "c.txt"])
    (some (.cons "a.txt" (.file 1) (.cons "b.txt" (.file 2)
      (.cons "c.txt" (.file 3) (.cons "d.txt" (.file 4)
        (.cons "e.txt" (.file 5) .nil))))))

/-- Root whose declaration ignores the file `x.txt` and the directory `sub`. -/
def fsSkips : FS :=
  .dir (some ["x.txt", "sub"])
    (some (.cons "x.txt" (.file 7)
      (.cons "sub" (.dir none (some (.cons "i.txt" (.file 1) .nil)))
        (.cons "keep.txt" (.file 2) .nil))))

/-- What `buildTree` makes of `fsSkips`: the ignored directory survives as a
stub, the ignored file vanishes. -/
def treeSkips : TreeNode :=
  .node "r" "/r" .folder none none (some (.cons
    (.node "sub" "/r/sub" .folder none (some .gitignore) none)
    (.cons (.node "keep.txt" "/r/keep.txt" .file (some 2) none none) .nil)))

/-- The spec's summary example: 1 file, 1 nested folder containing 1 file,
1 ignore-skipped folder, 1 size-skipped folder. -/
def treeSummaryEx : TreeNode :=
  .node "root" "/root" .folder none none (some (.cons
    (.node "f.txt" "/root/f.txt" .file (some 1) none none)
    (.cons (.node "sub" "/root/sub" .folder none none (some (.cons
      (.node "g.txt" "/root/sub/g.txt" .file (some 2) none none) .nil)))
      (.cons (.node "ig" "/root/ig" .folder none (some .gitignore) none)
        (.cons (.node "big" "/root/big" .folder none (some .size) none) .nil)))))

/-! ## The claims -/

/-- C1: an entry is marked excluded iff some level of the ignore stack,
testing the entry path relative to that level's declaring directory, excludes
it (the loop short-circuits at the first excluding level); exclusion by a
prefix of the stack is never undone by later levels; and the pattern
`"src/ignore.txt"` declared at the root excludes only `<root>/src/ignore.txt`,
leaving the root-level `ignore.txt` untouched. -/
theorem claim_C1 :
    (∀ (sem : IgnoreSem) (itemPath : String) (isDir : Bool)
        (stack : List IgnoreStackItem),
        checkIgnored sem itemPath isDir stack = true ↔
          ∃ lvl ∈ stack, levelExcludes sem itemPath isDir lvl = true)
    ∧ (∀ (sem : IgnoreSem) (itemPath : String) (isDir : Bool)
        (s1 s2 : List IgnoreStackItem),
        checkIgnored sem itemPath isDir s1 = true →
        checkIgnored sem itemPath isDir (s1 ++ s2) = true)
    ∧ buildTree specLitSem "/r" {} [] fsNested = treeNested :=
  ⟨checkIgnored_iff_exists, checkIgnored_append_of_true, rfl⟩

theorem claim_C1_witness :
    checkIgnored specLitSem "/r/x.txt" false
      ([⟨["x.txt"], "/r"⟩] ++ [⟨[], "/r/s"⟩]) = true :=
  claim_C1.2.1 specLitSem "/r/x.txt" false [⟨["x.txt"], "/r"⟩] [⟨[], "/r/s"⟩]
    (by decide)

/-- C2: when `maxLeaf` is set (to a positive value, the option's declared
domain) and the visible-child count strictly exceeds it, the directory
collapses to a `skipped: 'size'` folder node with no `children`; when the
visible count is at most `maxLeaf` the directory is fully expanded.  The
comparison is against the visible count, so the spec's worked examples hold:
five visible files against `maxLeaf = 3` truncate, five files of which three
are ignored do not. -/
theorem claim_C2 :
    (∀ (sem : IgnoreSem) (path : String) (opts : TreeOptions)
        (stack : List IgnoreStackItem) (gi : Option Patterns) (items : FSList)
        (m : Nat), opts.maxLeaf = some m → 0 < m →
        (m < visibleCount
            (scanCandidates sem path (newStackFor opts stack gi path) items) →
          buildTree sem path opts stack (.dir gi (some items)) =
            .node (basename path) path .folder none (some .size) none)
        ∧ (visibleCount
            (scanCandidates sem path (newStackFor opts stack gi path) items) ≤ m →
          buildTree sem path opts stack (.dir gi (some items)) =
            .node (basename path) path .folder none none
              (some (NodeList.ofList (sortNodes
                (buildKids sem opts (newStackFor opts stack gi path) path items))))))
    ∧ buildTree specLitSem "/r" ⟨some 3, none⟩ [] (.dir none (some fsBig5)) =
        .node "r" "/r" .folder none (some .size) none
    ∧ buildTree specLitSem "/r" ⟨some 3, none⟩ [] fsIgn3of5 =
        .node "r" "/r" .folder none none (some (.cons
          (.node "d.txt" "/r/d.txt" .file (some 4) none none)
          (.cons (.node "e.txt" "/r/e.txt" .file (some 5) none none) .nil))) := by
  refine ⟨?_, rfl, rfl⟩
  intro sem path opts stack gi items m hm hpos
  constructor
  · intro hv
    rw [buildTree_dir_some, if_pos]
    rw [hm]
    simp only [maxLeafTruncates, Bool.and_eq_true, bne_iff_ne, ne_eq,
      decide_eq_true_eq, gt_iff_lt]
    omega
  · intro hv
    rw [buildTree_dir_some, if_neg]
    rw [hm]
    simp only [maxLeafTruncates, Bool.and_eq_true, bne_iff_ne, ne_eq,
      decide_eq_true_eq, gt_iff_lt, not_and]
    omega

theorem claim_C2_witness :
    buildTree specLitSem "/rw" ⟨some 1, none⟩ []
      (.dir none (some (.cons "a" (.file 1) (.cons "b" (.file 2) .nil)))) =
      .node "rw" "/rw" .folder none (some .size) none :=
  (claim_C2.1 specLitSem "/rw" ⟨some 1, none⟩ [] none
      (.cons "a" (.file 1) (.cons "b" (.file 2) .nil)) 1 rfl (by decide)).1
    (by decide)

/-- C3: an excluded directory is emitted as a `skipped: 'gitignore'` folder
stub with no `children` and is not recursed into; an excluded file is omitted
from the children entirely; on the worked example the excluded file's name
appears nowhere in the tree. -/
theorem claim_C3 :
    (∀ (sem : IgnoreSem) (opts : TreeOptions) (stack : List IgnoreStackItem)
        (path item : String) (g : Option Patterns) (l : Option FSList)
        (rest : FSList),
        checkIgnored sem (pathJoin path item) true stack = true →
        buildKids sem opts stack path (.cons item (.dir g l) rest) =
          .node item (pathJoin path item) .folder none (some .gitignore) none ::
            buildKids sem opts stack path rest)
    ∧ (∀ (sem : IgnoreSem) (opts : TreeOptions) (stack : List IgnoreStackItem)
        (path item : String) (sz : Nat) (rest : FSList),
        checkIgnored sem (pathJoin path item) false stack = true →
        buildKids sem opts stack path (.cons item (.file sz) rest) =
          buildKids sem opts stack path rest)
    ∧ buildTree specLitSem "/r" {} [] fsSkips = treeSkips
    ∧ ¬ "x.txt" ∈ namesOf (buildTree specLitSem "/r" {} [] fsSkips) := by
  refine ⟨?_, ?_, rfl, by decide⟩
  · intro sem opts stack path item g l rest h
    simp only [buildKids]
    rw [if_pos h]
  · intro sem opts stack path item sz rest h
    simp only [buildKids]
    rw [if_pos h]

theorem claim_C3_witness :
    buildKids specLitSem {} [⟨["sub"], "/r3"⟩] "/r3"
      (.cons "sub" (.dir none (some .nil)) .nil) =
      [.node "sub" "/r3/sub" .folder none (some .gitignore) none] :=
  claim_C3.1 specLitSem {} [⟨["sub"], "/r3"⟩] "/r3" "sub" none (some .nil) .nil
    (by decide)

/-- C4: `buildTree` is a total function of the observed filesystem; a path
whose lstat fails yields a zero-size file node, and a directory whose listing
fails after a successful stat yields a folder node with empty, present
`children` and no skip reason. -/
theorem claim_C4 :
    (∀ (sem : IgnoreSem) (path : String) (opts : TreeOptions)
        (stack : List IgnoreStackItem),
        buildTree sem path opts stack .statFail =
          .node (basename path) path .file (some 0) none none)
    ∧ (∀ (sem : IgnoreSem) (path : String) (opts : TreeOptions)
        (stack : List IgnoreStackItem) (gi : Option Patterns),
        buildTree sem path opts stack (.dir gi none) =
          .node (basename path) path .folder none none (some .nil)) :=
  ⟨fun _ _ _ _ => rfl, fun _ _ _ _ _ => rfl⟩

/-- C5: in every folder node of a produced tree whose `children` field is
present, the children are ordered folders-before-files and, within each
group, by case-sensitive lexicographic name order (`nodeLe`). -/
theorem claim_C5 (sem : IgnoreSem) (path : String) (opts : TreeOptions)
    (stack : List IgnoreStackItem) (fs : FS) :
    sortedTree (buildTree sem path opts stack fs) :=
  buildTree_sorted fs sem path opts stack

/-- C6 as stated is false: the size-truncation test also applies to the root
invocation, so a root directory with more visible children than `maxLeaf` is
itself returned with skip reason `'size'`. -/
theorem claim_C6_cex :
    (buildTree specLitSem "/r" ⟨some 1, none⟩ []
      (.dir none (some (.cons "a" (.file 1)
        (.cons "b" (.file 2) .nil))))).skipped = some SkipReason.size :=
  rfl

/-- C6 (amended): a root invocation on a directory always returns a `Folder`
node, and the root is never marked `IgnoredByRule`; it may however be marked
`TooManyEntries` when `maxLeaf` truncation fires at the root. -/
theorem claim_C6 (sem : IgnoreSem) (path : String) (opts : TreeOptions)
    (gi : Option Patterns) (listing : Option FSList) :
    (buildTree sem path opts [] (.dir gi listing)).type = .folder
    ∧ (buildTree sem path opts [] (.dir gi listing)).skipped ≠
        some SkipReason.gitignore := by
  cases listing with
  | none => exact ⟨rfl, by simp [buildTree, TreeNode.skipped]⟩
  | some items =>
    rw [buildTree_dir_some]
    constructor
    · split <;> rfl
    · split <;> simp [TreeNode.skipped]

/-- C7 as stated is false: a root path that is itself a symbolic link does
produce a node — the degenerate zero-size file node. -/
theorem claim_C7_cex :
    buildTree specLitSem "/r/link" {} []
      (.symlink (.dir none (some (.cons "f" (.file 3) .nil)))) =
      .node "link" "/r/link" .file (some 0) none none :=
  rfl

/-- C7 (amended): symlink entries encountered while scanning a directory
contribute no node at any depth and are never visited for content — erasing
every symlink entry (with its entire target) from every listing leaves the
output unchanged; a root path that is itself a symlink degenerates to a
zero-size file node, independent of its target. -/
theorem claim_C7 :
    (∀ (sem : IgnoreSem) (path : String) (opts : TreeOptions)
        (stack : List IgnoreStackItem) (fs : FS),
        buildTree sem path opts stack fs.prune =
          buildTree sem path opts stack fs)
    ∧ (∀ (sem : IgnoreSem) (path : String) (opts : TreeOptions)
        (stack : List IgnoreStackItem) (t : FS),
        buildTree sem path opts stack (.symlink t) =
          .node (basename path) path .file (some 0) none none) :=
  ⟨fun sem path opts stack fs => buildTree_prune fs sem path opts stack,
   fun _ _ _ _ _ => rfl⟩

/-- C8: `getSummary` counts every `Folder` node (root included) in
`totalFolders`, every `File` node in `totalFiles`, and additionally every
folder with `skipped = 'gitignore'` in `skippedGitignore` and every folder
with `skipped = 'size'` in `skippedSize`; the spec's worked example yields
`⟨2, 4, 1, 1⟩`. -/
theorem claim_C8 :
    (∀ t : TreeNode, getSummary t = summarySpec t)
    ∧ getSummary treeSummaryEx = ⟨2, 4, 1, 1⟩ :=
  ⟨getSummary_spec, rfl⟩

/-- C9: `maxLeaf = 0` is falsy in the truncation test, so `buildTree` behaves
exactly as if `maxLeaf` were absent — no directory is ever collapsed for
size. -/
theorem claim_C9 (sem : IgnoreSem) (path : String) (ip : Option Patterns)
    (stack : List IgnoreStackItem) (fs : FS) :
    buildTree sem path ⟨some 0, ip⟩ stack fs =
      buildTree sem path ⟨none, ip⟩ stack fs :=
  buildTree_maxLeaf_zero fs sem path ip stack

/-- C10: `getSummary` increments the skip counters only for folder nodes: a
file node carrying a skipped marker is counted in `totalFiles` and in neither
skip counter. -/
theorem claim_C10 :
    (∀ (acc : TreeSummary) (n p : String) (sz : Option Nat)
        (sk : Option SkipReason),
        sumVisit acc (.node n p .file sz sk none) =
          { acc with totalFiles := acc.totalFiles + 1 })
    ∧ getSummary (.node "a" "/a" .file (some 1) (some .gitignore) none) =
        ⟨1, 0, 0, 0⟩
    ∧ getSummary (.node "b" "/b" .file (some 2) (some .size) none) =
        ⟨1, 0, 0, 0⟩ :=
  ⟨fun _ _ _ _ _ => rfl, rfl, rfl⟩

end TreeCli
